import Mathlib

set_option maxHeartbeats 1000000

/-!
Shallow embedding of the gateio RSI/DCA spot bot (src/bot.py and src/utils.py).

Python floats are modelled as rationals.  The Python `rsi` helper returns
`float("nan")` on insufficient data; the sentinel is modelled as
`none : Option ℚ`, and the comparison helpers below reproduce the
always-false semantics of NaN comparisons.  Exchange and notifier calls are
modelled as oracles passed into the cycle function; the observable effects of
a cycle (orders attempted, ledger appends, state saves) are collected in an
explicit action trace.
-/

/-- Python truthiness filter for an optional float: both `None` and `0.0` are
falsy, anything else is returned unchanged.  Used to model chains such as
`o.get("average") or o.get("price") or 0`. -/
def pyTruthy (a : Option ℚ) : Option ℚ :=
  a.bind (fun x => if x = 0 then none else some x)

/-- Comparison `r < x` where `r` may be the NaN sentinel (`none`): every
comparison against NaN is false in Python. -/
def nanLt (r : Option ℚ) (x : ℚ) : Bool :=
  match r with
  | none => false
  | some v => decide (v < x)

/-- Comparison `r > x` with the same NaN-as-`none` semantics. -/
def nanGt (r : Option ℚ) (x : ℚ) : Bool :=
  match r with
  | none => false
  | some v => decide (x < v)

/-- Truthiness of the optional `anchor_price` field: Python treats both
`None` and `0.0` as falsy in `if st.anchor_price and ...`. -/
def anchorSet (a : Option ℚ) : Bool :=
  match a with
  | none => false
  | some v => decide (v ≠ 0)

/-- Mirror of the `SymbolState` dataclass (src/bot.py lines 42-49). -/
structure SymbolState where
  avg_entry : ℚ := 0
  total_base : ℚ := 0
  open_buy_orders : List String := []
  open_sell_orders : List String := []
  anchor_price : Option ℚ := none
  last_signal_ts : ℕ := 0
  deriving DecidableEq

/-- The value `SymbolState()` built from all dataclass defaults: the
flat/unarmed state that `load_state` returns for a fresh symbol and that the
stop-loss branch resets to. -/
def SymbolState.init : SymbolState := {}

/-- One record appended to `profit_log.json`'s `trades` list. -/
structure TradeEntry where
  ts : ℕ
  symbol : String
  side : String
  filled : ℚ
  price : ℚ
  realized_usd : ℚ
  deriving DecidableEq

/-- One order report as returned by `exchange.fetch_orders`; optional fields
model keys that may be missing (`o.get(...)` returning `None`). -/
structure OrderReport where
  status : String
  clientOrderId : Option String
  side : String
  filled : Option ℚ
  average : Option ℚ
  price : Option ℚ
  deriving DecidableEq

/-- Resolution of `float(o.get("filled") or 0)`. -/
def filledOf (o : OrderReport) : ℚ := (pyTruthy o.filled).getD 0

/-- Resolution of `float(o.get("average") or o.get("price") or 0)`. -/
def priceOf (o : OrderReport) : ℚ :=
  ((pyTruthy o.average).orElse (fun _ => pyTruthy o.price)).getD 0

/-- Resolution of `o.get("clientOrderId") or ""`. -/
def cidOf (o : OrderReport) : String := o.clientOrderId.getD ""

/-- Body of the per-order loop of `reconcile_fills` (src/bot.py lines
239-275): skip non-closed reports and zero fills, apply a tracked buy fill to
the weighted-average cost basis, and apply a tracked sell fill to
`total_base` while appending a realized-P&L ledger entry.  The accumulator
carries the evolving `SymbolState` and the ledger's trade list, so each
report is priced against the cost basis available when it is processed. -/
def reconcileOrder (symbol : String) (ts : ℕ) (acc : SymbolState × List TradeEntry)
    (o : OrderReport) : SymbolState × List TradeEntry :=
  let st := acc.1
  let trades := acc.2
  if o.status ≠ "closed" then (st, trades)
  else if filledOf o ≤ 0 ∨ priceOf o ≤ 0 then (st, trades)
  else
    let filled := filledOf o
    let price := priceOf o
    let cid := cidOf o
    let stepBuy :=
      if o.side = "buy" ∧ cid ∈ st.open_buy_orders then
        let cost := filled * price
        let new_base := st.total_base + filled
        { st with
            avg_entry :=
              if 0 < new_base then (st.avg_entry * st.total_base + cost) / new_base
              else st.avg_entry,
            total_base := new_base,
            open_buy_orders := st.open_buy_orders.erase cid }
      else st
    if o.side = "sell" ∧ cid ∈ stepBuy.open_sell_orders then
      let proceeds := filled * price
      let cost_basis := filled * stepBuy.avg_entry
      let realized := proceeds - cost_basis
      ({ stepBuy with
          total_base := max 0 (stepBuy.total_base - filled),
          open_sell_orders := stepBuy.open_sell_orders.erase cid },
       trades ++ [⟨ts, symbol, "sell", filled, price, realized⟩])
    else (stepBuy, trades)

/-- Pure core of `reconcile_fills` (src/bot.py lines 226-278), applied to an
already-fetched list of order reports, in report order. -/
def reconcile_fills (symbol : String) (ts : ℕ) (st : SymbolState)
    (trades : List TradeEntry) (orders : List OrderReport) :
    SymbolState × List TradeEntry :=
  orders.foldl (reconcileOrder symbol ts) (st, trades)

/-- Deltas examined by `rsi` (src/utils.py lines 11-18): for `i` in
`1..period`, the difference `values[-i] - values[-i-1]`, i.e. the most recent
`period` close-to-close changes, newest first. -/
def rsiDeltas (values : List ℚ) (period : ℕ) : List ℚ :=
  (List.range period).map (fun j =>
    values.getD (values.length - (j + 1)) 0 - values.getD (values.length - (j + 2)) 0)

/-- Mirror of `rsi` (src/utils.py lines 7-24).  The Python function returns
`float("nan")` when fewer than `period+1` closes are available; the sentinel
is `none` here. -/
def rsi (values : List ℚ) (period : ℕ) : Option ℚ :=
  if values.length < period + 1 then none
  else
    let diffs := rsiDeltas values period
    let avg_gain := ((diffs.filter (fun d => 0 ≤ d)).sum) / (period : ℚ)
    let avg_loss := (((diffs.filter (fun d => d < 0)).map (fun d => -d)).sum) / (period : ℚ)
    if avg_loss = 0 then some 100
    else some (100 - 100 / (1 + avg_gain / avg_loss))

/-- Tail of the `_ema` recurrence (src/bot.py lines 96-99): given the previous
EMA value, fold the remaining closes through `ema = v*k + ema*(1-k)`. -/
def emaStep (k : ℚ) : ℚ → List ℚ → List ℚ
  | _, [] => []
  | prev, v :: rest => (v * k + prev * (1 - k)) :: emaStep k (v * k + prev * (1 - k)) rest

/-- Mirror of `_ema` (src/bot.py lines 91-100): identity for `period <= 1` or
an empty list, otherwise the EMA seeded by the first value with smoothing
`k = 2/(period+1)`. -/
def ema (values : List ℚ) (period : ℕ) : List ℚ :=
  if period ≤ 1 then values
  else
    match values with
    | [] => []
    | v :: rest => v :: emaStep (2 / ((period : ℚ) + 1)) v rest

/-- Mirror of `macd` (src/bot.py lines 103-113): returns
`(macd_line, signal_line, histogram)`, degrading to `([0], [0], [0])` when
fewer than `max(fast, slow, signal) + 1` closes exist. -/
def macd (closes : List ℚ) (fast : ℕ := 12) (slow : ℕ := 26) (signal : ℕ := 9) :
    List ℚ × List ℚ × List ℚ :=
  if closes.length < max (max fast slow) signal + 1 then ([0], [0], [0])
  else
    let ema_fast := ema closes fast
    let ema_slow := ema closes slow
    let macd_line := List.zipWith (fun f s => f - s) ema_fast ema_slow
    let signal_line := ema macd_line signal
    let hist := List.zipWith (fun m s => m - s) macd_line signal_line
    (macd_line, signal_line, hist)

/-- Per-symbol configuration fields read at the top of `run_symbol`
(src/bot.py lines 314-324). -/
structure SymCfg where
  entry_rsi_lt : ℚ
  usd_per_entry : ℚ
  dca_steps : ℕ
  dca_step_pct : ℚ
  max_position_usd : ℚ
  take_profits : List ℚ
  tp_allocation : List ℚ
  stop_close_below : ℚ
  min_notional_usd : ℚ

/-- External inputs of one `run_symbol` cycle: the ticker price, the
indicator values (`rsiVal = none` models the NaN sentinel), the wall clock,
and oracles for order placement outcomes and the exchange's
`amount_to_precision` rounding. -/
structure CycleInput where
  symbol : String
  last : ℚ
  rsiVal : Option ℚ
  macd_hist : ℚ
  macd_hist_prev : ℚ
  ts : ℕ
  marketSellCid : Option String
  tpPlace : ℕ → Option String
  buyPlace : ℕ → Option String
  roundAmt : ℚ → ℚ
  auto_rebuy : Bool

/-- Observable effects of a cycle.  `marketSell` records the attempted
stop-loss liquidation (placed whether or not the exchange accepts it);
`limitSell`/`limitBuy` record successfully placed resting orders;
`armAnchor`, `disarm` and `autoRearm` tag the three anchor transitions of the
signal logic; `appendTrade`, `savePL` and `saveState` record persistence. -/
inductive BotAction where
  | marketSell (amount : ℚ)
  | limitSell (amount : ℚ) (price : ℚ)
  | limitBuy (amount : ℚ) (price : ℚ)
  | armAnchor (p : ℚ)
  | disarm
  | autoRearm (p : ℚ)
  | appendTrade (t : TradeEntry)
  | savePL
  | saveState (st : SymbolState)
  deriving DecidableEq

/-- Signal actions in the sense of claim C8: arming an anchor (either way),
clearing it via the hysteresis disarm, or placing a DCA buy. -/
def isSignalAction : BotAction → Bool
  | .armAnchor _ => true
  | .autoRearm _ => true
  | .disarm => true
  | .limitBuy _ _ => true
  | _ => false

/-- One limit buy produced by the DCA ladder loop. -/
structure PlacedOrder where
  idx : ℕ
  buy_price : ℚ
  amount : ℚ
  cid : String
  deriving DecidableEq

/-- Mirror of the DCA ladder loop (src/bot.py lines 383-401).  The first
argument of the recursion is the remaining iteration count (`dca_steps - i`),
`i` is the current step index, and the accumulator carries the placed orders
and the cumulative planned USD.  The loop breaks once the next budget would
exceed `max_position_usd`, and `continue`s past steps whose budget or
post-rounding notional falls below the minimum-notional floor. -/
def ladder_go (roundAmt : ℚ → ℚ) (place : ℕ → Option String) (cfg : SymCfg) (anchor : ℚ) :
    ℕ → ℕ → ℚ → List PlacedOrder → List PlacedOrder × ℚ
  | 0, _, total_usd, acc => (acc, total_usd)
  | fuel + 1, i, total_usd, acc =>
    let buy_price := anchor * (1 - ((i : ℚ) * cfg.dca_step_pct / 100))
    let usd_budget := cfg.usd_per_entry
    if cfg.max_position_usd < total_usd + usd_budget then (acc, total_usd)
    else if usd_budget < cfg.min_notional_usd then
      ladder_go roundAmt place cfg anchor fuel (i + 1) total_usd acc
    else
      let amount := roundAmt (usd_budget / buy_price)
      if amount * buy_price < cfg.min_notional_usd then
        ladder_go roundAmt place cfg anchor fuel (i + 1) total_usd acc
      else
        match place i with
        | some cid =>
          ladder_go roundAmt place cfg anchor fuel (i + 1) (total_usd + usd_budget)
            (acc ++ [⟨i, buy_price, amount, cid⟩])
        | none => ladder_go roundAmt place cfg anchor fuel (i + 1) total_usd acc

/-- The ladder planned for an armed anchor: `dca_steps` iterations starting
from step index 0 with zero cumulative USD. -/
def entry_ladder (roundAmt : ℚ → ℚ) (place : ℕ → Option String) (cfg : SymCfg)
    (anchor : ℚ) : List PlacedOrder × ℚ :=
  ladder_go roundAmt place cfg anchor cfg.dca_steps 0 0 []

/-- Body of the take-profit loop (src/bot.py lines 360-371) over the
enumerated `take_profits` list: skip tiers whose rounded amount is below the
minimum notional at the current price, and append each successfully placed
sell's identifier to `open_sell_orders`. -/
def tpLoop (cfg : SymCfg) (inp : CycleInput) :
    List (ℕ × ℚ) → SymbolState → SymbolState × List BotAction
  | [], st => (st, [])
  | (idx, tp) :: rest, st =>
    let target_price := st.avg_entry * (1 + tp)
    let amount := inp.roundAmt (st.total_base * cfg.tp_allocation.getD idx 0)
    if amount * inp.last < cfg.min_notional_usd then tpLoop cfg inp rest st
    else
      match inp.tpPlace idx with
      | some cid =>
        let st1 := { st with open_sell_orders := st.open_sell_orders ++ [cid] }
        let out := tpLoop cfg inp rest st1
        (out.1, BotAction.limitSell amount target_price :: out.2)
      | none => tpLoop cfg inp rest st

/-- Take-profit placement step (src/bot.py lines 359-372): runs only when
positioned with a positive cost basis, and persists the state at the end of
the loop. -/
def tpPhase (cfg : SymCfg) (inp : CycleInput) (st : SymbolState) :
    SymbolState × List BotAction :=
  if 0 < st.total_base ∧ 0 < st.avg_entry then
    let out := tpLoop cfg inp cfg.take_profits.enum st
    (out.1, out.2 ++ [BotAction.saveState out.1])
  else (st, [])

/-- Entry evaluation (src/bot.py lines 374-407): the aggressive signal is
`RSI < entry_rsi_lt` with a rising MACD histogram; on entry the anchor is
armed if absent and the DCA ladder is placed from it, otherwise the anchor is
cleared once RSI recovers ten points above the trigger. -/
def entryPhase (cfg : SymCfg) (inp : CycleInput) (st : SymbolState) :
    SymbolState × List BotAction :=
  if nanLt inp.rsiVal cfg.entry_rsi_lt && decide (inp.macd_hist_prev < inp.macd_hist) then
    let armed :=
      match st.anchor_price with
      | none =>
        ({ st with anchor_price := some inp.last, last_signal_ts := inp.ts },
         [BotAction.armAnchor inp.last])
      | some _ => (st, ([] : List BotAction))
    let st1 := armed.1
    let anchor := st1.anchor_price.getD 0
    let planned := (entry_ladder inp.roundAmt inp.buyPlace cfg anchor).1
    let st2 := { st1 with open_buy_orders := st1.open_buy_orders ++ planned.map (fun e => e.cid) }
    (st2, armed.2 ++ planned.map (fun e => BotAction.limitBuy e.amount e.buy_price)
            ++ [BotAction.saveState st2])
  else
    if anchorSet st.anchor_price && nanGt inp.rsiVal (cfg.entry_rsi_lt + 10) then
      let st1 := { st with anchor_price := none }
      (st1, [BotAction.disarm, BotAction.saveState st1])
    else (st, [])

/-- Auto-rearm step (src/bot.py lines 409-414): when enabled, flat, unarmed
and the RSI trigger holds, arm a fresh anchor at the current price. -/
def autoRearmPhase (cfg : SymCfg) (inp : CycleInput) (st : SymbolState) :
    SymbolState × List BotAction :=
  if inp.auto_rebuy && decide (st.total_base = 0) && nanLt inp.rsiVal cfg.entry_rsi_lt then
    match st.anchor_price with
    | none =>
      let st1 := { st with anchor_price := some inp.last }
      (st1, [BotAction.autoRearm inp.last, BotAction.saveState st1])
    | some _ => (st, [])
  else (st, [])

/-- Post-reconciliation part of `run_symbol` (src/bot.py lines 338-414).
The stop-loss check runs first: when positioned, with a positive configured
threshold, and the price below it, the entire position is market-sold; if the
placement succeeds, a `stop_exit` ledger entry is appended, the state is
reset to `SymbolState.init` and persisted, and the cycle returns — otherwise
the cycle returns with nothing mutated.  When the stop does not fire, the
take-profit, entry and auto-rearm steps run in order. -/
def cycleAfterReconcile (cfg : SymCfg) (inp : CycleInput) (st : SymbolState)
    (trades : List TradeEntry) : SymbolState × List TradeEntry × List BotAction :=
  if 0 < st.total_base ∧ 0 < cfg.stop_close_below ∧ inp.last < cfg.stop_close_below then
    match inp.marketSellCid with
    | some _ =>
      let t : TradeEntry :=
        ⟨inp.ts, inp.symbol, "stop_exit", st.total_base, inp.last,
         (inp.last - st.avg_entry) * st.total_base⟩
      (SymbolState.init, trades ++ [t],
       [BotAction.marketSell st.total_base, BotAction.appendTrade t, BotAction.savePL,
        BotAction.saveState SymbolState.init])
    | none => (st, trades, [BotAction.marketSell st.total_base])
  else
    let p1 := tpPhase cfg inp st
    let p2 := entryPhase cfg inp p1.1
    let p3 := autoRearmPhase cfg inp p2.1
    (p3.1, trades, p1.2 ++ p2.2 ++ p3.2)

/-- One full `run_symbol` cycle (src/bot.py lines 313-414) on loaded state:
reconcile fills against the fetched order reports (`none` models a failed
`fetch_orders` call, which returns with local state untouched), then run the
stop-loss / take-profit / entry logic. -/
def run_symbol (cfg : SymCfg) (inp : CycleInput) (orders : Option (List OrderReport))
    (st : SymbolState) (trades : List TradeEntry) :
    SymbolState × List TradeEntry × List BotAction :=
  let rec1 :=
    match orders with
    | some os => reconcile_fills inp.symbol inp.ts st trades os
    | none => (st, trades)
  cycleAfterReconcile cfg inp rec1.1 rec1.2

/-- Contents of the modelled file system: a map from path to file content. -/
def FileSys : Type := String → Option String

/-- Primitive file-system operations visible to the persistence layer. -/
inductive FsOp where
  | truncate (path : String)
  | write (path : String) (data : String)
  | rename (src : String) (dst : String)

/-- Effect of one primitive operation: `truncate` empties (or creates) the
file, `write` appends to it, `rename` atomically replaces the target. -/
def applyFsOp (fs : FileSys) : FsOp → FileSys
  | .truncate p => fun q => if q = p then some "" else fs q
  | .write p d => fun q => if q = p then some ((fs p).getD "" ++ d) else fs q
  | .rename s d => fun q => if q = d then fs s else if q = s then none else fs q

/-- Effect of a sequence of operations, applied left to right; a crash after
`k` operations leaves the file system `applyFsOps fs (ops.take k)`. -/
def applyFsOps (fs : FileSys) (ops : List FsOp) : FileSys :=
  ops.foldl applyFsOp fs

/-- Mirror of `state_path` (src/bot.py lines 57-59). -/
def state_path (sym : String) : String :=
  "STATE/" ++ (sym.map (fun c => if c = '/' then '_' else c)) ++ ".json"

/-- Operations performed by `save_state` (src/bot.py lines 71-73): Python's
`open(path, "w")` truncates the record in place and `json.dump` then writes
the serialized payload into the same file.  No temporary file and no rename
are involved. -/
def save_state_ops (sym : String) (payload : String) : List FsOp :=
  [.truncate (state_path sym), .write (state_path sym) payload]

/-- Concrete buy report: 10 units filled at 2.0, client id `b1`. -/
def oBuy1 : OrderReport := ⟨"closed", some "b1", "buy", some 10, some 2, none⟩

/-- Concrete buy report: 10 units filled at 4.0, client id `b2`. -/
def oBuy2 : OrderReport := ⟨"closed", some "b2", "buy", some 10, some 4, none⟩

/-- Concrete sell report: 5 units filled at 5.0, client id `s1`. -/
def oSell5 : OrderReport := ⟨"closed", some "s1", "sell", some 5, some 5, none⟩

/-- Concrete closed sell report with zero filled quantity, client id `s1`. -/
def oSell0 : OrderReport := ⟨"closed", some "s1", "sell", some 0, none, some 5⟩

/-- Concrete configuration with stop threshold 50 for the stop-loss claims. -/
def stopCfg : SymCfg := ⟨30, 10, 3, 5, 1000, [], [], 50, 10⟩

/-- Concrete cycle input at price 40 (below the stop threshold) whose market
sell placement succeeds. -/
def stopInpOk : CycleInput :=
  ⟨"BTC/USDT", 40, some 50, 0, 0, 7, some "mk1", fun _ => none, fun _ => none, fun q => q, false⟩

/-- Concrete cycle input at price 40 whose market sell placement fails. -/
def stopInpFail : CycleInput :=
  ⟨"BTC/USDT", 40, some 50, 0, 0, 7, none, fun _ => none, fun _ => none, fun q => q, false⟩

/-- Concrete cycle input whose RSI is the insufficient-data sentinel while
every placement oracle would succeed and auto-rebuy is on. -/
def nanInp : CycleInput :=
  ⟨"BTC/USDT", 40, none, 1, 0, 7, some "mk1", fun _ => some "tp1", fun _ => some "by1",
   fun q => q, true⟩

/-- Ladder configuration `dca_steps=3, dca_step_pct=5, usd_per_entry=10,
max_position_usd=1000` for the target-price example. -/
def ladderCfgA : SymCfg := ⟨30, 10, 3, 5, 1000, [], [], 0, 1⟩

/-- Ladder configuration whose `max_position_usd=25` stops planning after two
10-USD steps. -/
def ladderCfgB : SymCfg := ⟨30, 10, 3, 5, 25, [], [], 0, 1⟩

/-- Ladder configuration whose first step's post-rounding notional falls
below the 150 floor while later steps clear it. -/
def ladderCfgC : SymCfg := ⟨30, 190, 3, 5, 1000, [], [], 0, 150⟩

/-- Processing a tracked closed buy report rewrites the position fields by the
weighted-average formula and erases the identifier. -/
lemma reconcileOrder_buy_eq (symbol : String) (ts : ℕ) (st : SymbolState)
    (trades : List TradeEntry) (o : OrderReport)
    (hstatus : o.status = "closed") (hside : o.side = "buy")
    (hcid : cidOf o ∈ st.open_buy_orders) (hfill : 0 < filledOf o)
    (hprice : 0 < priceOf o) (hbase : 0 ≤ st.total_base) :
    reconcileOrder symbol ts (st, trades) o =
      ({ st with
          avg_entry := (st.avg_entry * st.total_base + filledOf o * priceOf o)
            / (st.total_base + filledOf o),
          total_base := st.total_base + filledOf o,
          open_buy_orders := st.open_buy_orders.erase (cidOf o) }, trades) := by
  have hnb : 0 < st.total_base + filledOf o := by linarith
  simp [reconcileOrder, hstatus, hside, hcid, not_le.mpr hfill, not_le.mpr hprice, hnb]

/-- Processing a tracked closed sell report decrements `total_base` (floored
at 0), erases the identifier and appends one ledger entry. -/
lemma reconcileOrder_sell_eq (symbol : String) (ts : ℕ) (st : SymbolState)
    (trades : List TradeEntry) (o : OrderReport)
    (hstatus : o.status = "closed") (hside : o.side = "sell")
    (hcid : cidOf o ∈ st.open_sell_orders) (hfill : 0 < filledOf o)
    (hprice : 0 < priceOf o) :
    reconcileOrder symbol ts (st, trades) o =
      ({ st with
          total_base := max 0 (st.total_base - filledOf o),
          open_sell_orders := st.open_sell_orders.erase (cidOf o) },
       trades ++ [⟨ts, symbol, "sell", filledOf o, priceOf o,
         filledOf o * priceOf o - filledOf o * st.avg_entry⟩]) := by
  simp [reconcileOrder, hstatus, hside, hcid, not_le.mpr hfill, not_le.mpr hprice]

/-- The take-profit loop never touches `avg_entry` or `total_base`. -/
lemma tpLoop_avg_base (cfg : SymCfg) (inp : CycleInput) (l : List (ℕ × ℚ)) :
    ∀ st : SymbolState,
      (tpLoop cfg inp l st).1.avg_entry = st.avg_entry ∧
      (tpLoop cfg inp l st).1.total_base = st.total_base := by
  induction l with
  | nil => intro st; exact ⟨rfl, rfl⟩
  | cons hd rest ih =>
    intro st
    obtain ⟨idx, tp⟩ := hd
    simp only [tpLoop]
    split
    · exact ih st
    · cases hpl : inp.tpPlace idx with
      | some cid => simpa using ih _
      | none => exact ih st

/-- Take-profit placement never touches `avg_entry` or `total_base`. -/
lemma tpPhase_avg_base (cfg : SymCfg) (inp : CycleInput) (st : SymbolState) :
    (tpPhase cfg inp st).1.avg_entry = st.avg_entry ∧
    (tpPhase cfg inp st).1.total_base = st.total_base := by
  unfold tpPhase
  split
  · simpa using tpLoop_avg_base cfg inp cfg.take_profits.enum st
  · exact ⟨rfl, rfl⟩

/-- Entry evaluation and ladder placement never touch `avg_entry` or
`total_base`. -/
lemma entryPhase_avg_base (cfg : SymCfg) (inp : CycleInput) (st : SymbolState) :
    (entryPhase cfg inp st).1.avg_entry = st.avg_entry ∧
    (entryPhase cfg inp st).1.total_base = st.total_base := by
  unfold entryPhase
  split
  · cases hst : st.anchor_price <;> simp [hst]
  · split <;> simp

/-- Auto-rearm never touches `avg_entry` or `total_base`. -/
lemma autoRearmPhase_avg_base (cfg : SymCfg) (inp : CycleInput) (st : SymbolState) :
    (autoRearmPhase cfg inp st).1.avg_entry = st.avg_entry ∧
    (autoRearmPhase cfg inp st).1.total_base = st.total_base := by
  unfold autoRearmPhase
  split
  · cases hst : st.anchor_price <;> simp [hst]
  · exact ⟨rfl, rfl⟩

/-- The post-reconciliation cycle preserves the flat-position invariant
`total_base = 0 → avg_entry = 0`. -/
lemma cycle_preserves_flat_inv (cfg : SymCfg) (inp : CycleInput) (st : SymbolState)
    (trades : List TradeEntry) (h : st.total_base = 0 → st.avg_entry = 0) :
    (cycleAfterReconcile cfg inp st trades).1.total_base = 0 →
    (cycleAfterReconcile cfg inp st trades).1.avg_entry = 0 := by
  unfold cycleAfterReconcile
  split
  · cases hms : inp.marketSellCid with
    | some c => intro _; rfl
    | none => exact h
  · obtain ⟨h1a, h1b⟩ := tpPhase_avg_base cfg inp st
    obtain ⟨h2a, h2b⟩ := entryPhase_avg_base cfg inp (tpPhase cfg inp st).1
    obtain ⟨h3a, h3b⟩ := autoRearmPhase_avg_base cfg inp (entryPhase cfg inp (tpPhase cfg inp st).1).1
    simp only [h3a, h3b, h2a, h2b, h1a, h1b]
    exact h

/-- With the NaN sentinel as RSI, the entry step neither arms nor places nor
disarms anything. -/
lemma entryPhase_nan (cfg : SymCfg) (inp : CycleInput) (st : SymbolState)
    (h : inp.rsiVal = none) : entryPhase cfg inp st = (st, []) := by
  unfold entryPhase
  simp [h, nanLt, nanGt]

/-- With the NaN sentinel as RSI, auto-rearm does nothing. -/
lemma autoRearmPhase_nan (cfg : SymCfg) (inp : CycleInput) (st : SymbolState)
    (h : inp.rsiVal = none) : autoRearmPhase cfg inp st = (st, []) := by
  unfold autoRearmPhase
  simp [h, nanLt]

/-- Every action emitted by the take-profit loop is a non-signal action. -/
lemma tpLoop_actions_not_signal (cfg : SymCfg) (inp : CycleInput) (l : List (ℕ × ℚ)) :
    ∀ st : SymbolState, ∀ a ∈ (tpLoop cfg inp l st).2, isSignalAction a = false := by
  induction l with
  | nil => intro st a ha; simp [tpLoop] at ha
  | cons hd rest ih =>
    intro st a ha
    obtain ⟨idx, tp⟩ := hd
    simp only [tpLoop] at ha
    split at ha
    · exact ih st a ha
    · revert ha
      cases hpl : inp.tpPlace idx with
      | some cid =>
        intro ha
        simp only [List.mem_cons] at ha
        rcases ha with h | h
        · subst h; rfl
        · exact ih _ a h
      | none => intro ha; exact ih st a ha

/-- Every action emitted by take-profit placement is a non-signal action. -/
lemma tpPhase_actions_not_signal (cfg : SymCfg) (inp : CycleInput) (st : SymbolState) :
    ∀ a ∈ (tpPhase cfg inp st).2, isSignalAction a = false := by
  unfold tpPhase
  split
  · intro a ha
    rcases List.mem_append.mp ha with h | h
    · exact tpLoop_actions_not_signal cfg inp cfg.take_profits.enum st a h
    · simp at h; subst h; rfl
  · intro a ha; simp at ha

/-- With the NaN sentinel as RSI, no signal action is emitted by the cycle. -/
lemma cycle_nan_no_signal (cfg : SymCfg) (inp : CycleInput) (st : SymbolState)
    (trades : List TradeEntry) (h : inp.rsiVal = none) :
    ∀ a ∈ (cycleAfterReconcile cfg inp st trades).2.2, isSignalAction a = false := by
  unfold cycleAfterReconcile
  split
  · cases hms : inp.marketSellCid with
    | some c => intro a ha; simp at ha; rcases ha with h | h | h | h <;> (subst h; rfl)
    | none => intro a ha; simp at ha; subst ha; rfl
  · simp only [entryPhase_nan cfg inp _ h, autoRearmPhase_nan cfg inp _ h, List.append_nil]
    exact tpPhase_actions_not_signal cfg inp st

/-- Every order accumulated by the ladder loop carries the step-indexed
target price and the rounded fixed-budget amount. -/
lemma ladder_go_prices (roundAmt : ℚ → ℚ) (place : ℕ → Option String) (cfg : SymCfg)
    (anchor : ℚ) : ∀ (fuel i : ℕ) (total : ℚ) (acc : List PlacedOrder),
    (∀ e ∈ acc, e.buy_price = anchor * (1 - (e.idx : ℚ) * cfg.dca_step_pct / 100) ∧
      e.amount = roundAmt (cfg.usd_per_entry / e.buy_price)) →
    ∀ e ∈ (ladder_go roundAmt place cfg anchor fuel i total acc).1,
      e.buy_price = anchor * (1 - (e.idx : ℚ) * cfg.dca_step_pct / 100) ∧
      e.amount = roundAmt (cfg.usd_per_entry / e.buy_price) := by
  intro fuel
  induction fuel with
  | zero => intro i total acc hacc; simpa [ladder_go] using hacc
  | succ n ih =>
    intro i total acc hacc
    simp only [ladder_go]
    split
    · simpa using hacc
    · split
      · exact ih (i + 1) total acc hacc
      · split
        · exact ih (i + 1) total acc hacc
        · cases hpl : place i with
          | some cid =>
            refine ih (i + 1) _ _ ?_
            intro e he
            rcases List.mem_append.mp he with hmem | hmem
            · exact hacc e hmem
            · simp only [List.mem_singleton] at hmem
              subst hmem
              exact ⟨rfl, rfl⟩
          | none => exact ih (i + 1) total acc hacc

/-- The cumulative planned USD of the ladder loop never exceeds the budget
cap it starts below. -/
lemma ladder_go_budget (roundAmt : ℚ → ℚ) (place : ℕ → Option String) (cfg : SymCfg)
    (anchor : ℚ) : ∀ (fuel i : ℕ) (total : ℚ) (acc : List PlacedOrder),
    total ≤ cfg.max_position_usd →
    (ladder_go roundAmt place cfg anchor fuel i total acc).2 ≤ cfg.max_position_usd := by
  intro fuel
  induction fuel with
  | zero => intro i total acc h; simpa [ladder_go] using h
  | succ n ih =>
    intro i total acc h
    simp only [ladder_go]
    split
    · simpa using h
    · split
      · exact ih (i + 1) total acc h
      · split
        · exact ih (i + 1) total acc h
        · cases hpl : place i with
          | some cid =>
            refine ih (i + 1) _ _ ?_
            rename_i hnb _ _
            push_neg at hnb
            exact hnb
          | none => exact ih (i + 1) total acc h

/-- The `emaStep` recurrence preserves list length. -/
lemma emaStep_length (k : ℚ) : ∀ (l : List ℚ) (prev : ℚ),
    (emaStep k prev l).length = l.length := by
  intro l
  induction l with
  | nil => intro prev; rfl
  | cons v rest ih => intro prev; simp [emaStep, ih]

/-- The EMA of a series has the same length as the series. -/
lemma ema_length (values : List ℚ) (period : ℕ) :
    (ema values period).length = values.length := by
  unfold ema
  split
  · rfl
  · cases values with
    | nil => rfl
    | cons v rest => simp [emaStep_length]

/-- Pointwise reading of a zipped difference of two lists. -/
lemma zipWith_sub_getD : ∀ (a b : List ℚ) (i : ℕ), i < a.length → i < b.length →
    (List.zipWith (fun m s => m - s) a b).getD i 0 = a.getD i 0 - b.getD i 0
  | [], _, i, ha, _ => by simp at ha
  | _ :: _, [], i, _, hb => by simp at hb
  | x :: xs, y :: ys, 0, _, _ => by simp
  | x :: xs, y :: ys, (i + 1), ha, hb => by
    simp only [List.zipWith_cons_cons, List.getD_cons_succ]
    exact zipWith_sub_getD xs ys i (by simpa using ha) (by simpa using hb)

/-- Recurrence satisfied by consecutive entries of `emaStep`. -/
lemma emaStep_getD_succ (k : ℚ) : ∀ (l : List ℚ) (prev : ℚ) (i : ℕ), i + 1 < l.length →
    (emaStep k prev l).getD (i + 1) 0 =
      l.getD (i + 1) 0 * k + (emaStep k prev l).getD i 0 * (1 - k) := by
  intro l
  induction l with
  | nil => intro prev i h; simp at h
  | cons v rest ih =>
    intro prev i h
    cases i with
    | zero =>
      cases rest with
      | nil => simp at h
      | cons w r' => simp [emaStep]
    | succ j =>
      have h' : j + 1 < rest.length := by simpa using h
      simp only [emaStep, List.getD_cons_succ]
      exact ih _ j h'

/-- The EMA is seeded by the first value of the series. -/
lemma ema_getD_zero (values : List ℚ) (period : ℕ) (h : values ≠ []) :
    (ema values period).getD 0 0 = values.getD 0 0 := by
  unfold ema
  split
  · rfl
  · cases values with
    | nil => rfl
    | cons v rest => simp [emaStep]

/-- EMA forward recurrence `ema[i+1] = value[i+1]*k + ema[i]*(1-k)` with
`k = 2/(period+1)`, valid for every period of at least 1. -/
lemma ema_getD_succ (values : List ℚ) (period : ℕ) (hp : 1 ≤ period) (i : ℕ)
    (h : i + 1 < values.length) :
    (ema values period).getD (i + 1) 0 =
      values.getD (i + 1) 0 * (2 / ((period : ℚ) + 1)) +
        (ema values period).getD i 0 * (1 - 2 / ((period : ℚ) + 1)) := by
  unfold ema
  by_cases hp1 : period ≤ 1
  · have hper : period = 1 := le_antisymm hp1 hp
    subst hper
    rw [if_pos (le_refl 1)]
    norm_num
  · rw [if_neg hp1]
    cases values with
    | nil => simp at h
    | cons v rest =>
      cases i with
      | zero =>
        cases rest with
        | nil => simp at h
        | cons w r' => simp [emaStep]
      | succ j =>
        simp only [List.getD_cons_succ]
        exact emaStep_getD_succ _ rest v j (by simpa using h)

/-- Claim C1: for every closed order report whose side is buy, whose
clientOrderId is tracked in `open_buy_orders`, and whose filled quantity and
fill price are positive, reconciliation updates `avg_entry` to
`(avg_entry*total_base + filled_qty*fill_price)/(total_base + filled_qty)`,
adds `filled_qty` to `total_base`, and removes the identifier from
`open_buy_orders` (the trade ledger is untouched).  Stated over any valid
state, i.e. one with a nonnegative `total_base`. -/
theorem reconcile_buy_fill_updates_avg_entry (symbol : String) (ts : ℕ)
    (st : SymbolState) (trades : List TradeEntry) (o : OrderReport)
    (hstatus : o.status = "closed") (hside : o.side = "buy")
    (hcid : cidOf o ∈ st.open_buy_orders) (hfill : 0 < filledOf o)
    (hprice : 0 < priceOf o) (hbase : 0 ≤ st.total_base) :
    reconcileOrder symbol ts (st, trades) o =
      ({ st with
          avg_entry := (st.avg_entry * st.total_base + filledOf o * priceOf o)
            / (st.total_base + filledOf o),
          total_base := st.total_base + filledOf o,
          open_buy_orders := st.open_buy_orders.erase (cidOf o) }, trades) :=
  reconcileOrder_buy_eq symbol ts st trades o hstatus hside hcid hfill hprice hbase

/-- Claim C1 witness: from a flat state a 10-unit buy at 2.0 yields
`avg_entry = 2.0, total_base = 10`, and a subsequent 10-unit buy at 4.0
yields `avg_entry = 3.0, total_base = 20`. -/
theorem reconcile_buy_fill_updates_avg_entry_witness :
    reconcileOrder "AAA" 0 (⟨0, 0, ["b1", "b2"], [], none, 0⟩, []) oBuy1 =
      (⟨2, 10, ["b2"], [], none, 0⟩, []) ∧
    reconcileOrder "AAA" 0 (⟨2, 10, ["b2"], [], none, 0⟩, []) oBuy2 =
      (⟨3, 20, [], [], none, 0⟩, []) := by
  constructor
  · rw [reconcile_buy_fill_updates_avg_entry "AAA" 0 ⟨0, 0, ["b1", "b2"], [], none, 0⟩ [] oBuy1
      rfl rfl (by norm_num [oBuy1, cidOf]) (by norm_num [oBuy1, filledOf, pyTruthy])
      (by norm_num [oBuy1, priceOf, pyTruthy]) (by norm_num)]
    norm_num [oBuy1, filledOf, priceOf, cidOf, pyTruthy, List.erase]
  · rw [reconcile_buy_fill_updates_avg_entry "AAA" 0 ⟨2, 10, ["b2"], [], none, 0⟩ [] oBuy2
      rfl rfl (by norm_num [oBuy2, cidOf]) (by norm_num [oBuy2, filledOf, pyTruthy])
      (by norm_num [oBuy2, priceOf, pyTruthy]) (by norm_num)]
    norm_num [oBuy2, filledOf, priceOf, cidOf, pyTruthy, List.erase]

/-- Claim C2 counterexample: a closed sell report whose clientOrderId is in
`open_sell_orders` but whose filled quantity resolves to 0 is skipped
entirely by reconciliation — no ledger entry is appended, `total_base` is
unchanged and the identifier stays in `open_sell_orders`, contradicting the
claim's unconditional quantification over closed sell reports. -/
theorem closed_sell_with_zero_fill_is_ignored :
    reconcile_fills "AAA" 0 ⟨3, 5, [], ["s1"], none, 0⟩ [] [oSell0] =
      (⟨3, 5, [], ["s1"], none, 0⟩, []) := by
  norm_num [reconcile_fills, reconcileOrder, oSell0, filledOf, priceOf, cidOf, pyTruthy]

/-- Claim C2 as amended: for every closed order report whose side is sell,
whose clientOrderId is in `open_sell_orders`, and whose filled quantity and
fill price are positive, reconciliation computes realized P&L
`filled_qty*fill_price - filled_qty*avg_entry` against the cost basis in the
accumulator at processing time, sets `total_base` to
`max 0 (total_base - filled_qty)`, removes the identifier from
`open_sell_orders`, and appends exactly one trade-ledger entry with that
realized P&L. -/
theorem reconcile_sell_fill_records_pnl (symbol : String) (ts : ℕ)
    (st : SymbolState) (trades : List TradeEntry) (o : OrderReport)
    (hstatus : o.status = "closed") (hside : o.side = "sell")
    (hcid : cidOf o ∈ st.open_sell_orders) (hfill : 0 < filledOf o)
    (hprice : 0 < priceOf o) :
    reconcileOrder symbol ts (st, trades) o =
      ({ st with
          total_base := max 0 (st.total_base - filledOf o),
          open_sell_orders := st.open_sell_orders.erase (cidOf o) },
       trades ++ [⟨ts, symbol, "sell", filledOf o, priceOf o,
         filledOf o * priceOf o - filledOf o * st.avg_entry⟩]) :=
  reconcileOrder_sell_eq symbol ts st trades o hstatus hside hcid hfill hprice

/-- Claim C2 witness: a sell of 5 units at 5.0 against `avg_entry = 3.0`
records realized P&L 10.0 in exactly one ledger entry and reduces
`total_base` by 5. -/
theorem reconcile_sell_fill_records_pnl_witness :
    reconcileOrder "AAA" 7 (⟨3, 5, [], ["s1"], none, 0⟩, []) oSell5 =
      (⟨3, 0, [], [], none, 0⟩, [⟨7, "AAA", "sell", 5, 5, 10⟩]) := by
  rw [reconcile_sell_fill_records_pnl "AAA" 7 ⟨3, 5, [], ["s1"], none, 0⟩ [] oSell5
    rfl rfl (by norm_num [oSell5, cidOf]) (by norm_num [oSell5, filledOf, pyTruthy])
    (by norm_num [oSell5, priceOf, pyTruthy])]
  norm_num [oSell5, filledOf, priceOf, cidOf, pyTruthy, List.erase]

/-- Claim C3 counterexample: reconciling a sell fill that brings
`total_base` to 0 leaves `avg_entry` at its previous value 3, so the
invariant `total_base = 0 → avg_entry = 0` is not preserved by fill
reconciliation: the state before the fill satisfies the invariant
(`total_base = 5`), the state after has `total_base = 0` and
`avg_entry = 3 ≠ 0`. -/
theorem sell_to_flat_keeps_stale_avg_entry :
    ((reconcile_fills "AAA" 7 ⟨3, 5, [], ["s1"], none, 0⟩ [] [oSell5]).1.total_base = 0 ∧
     (reconcile_fills "AAA" 7 ⟨3, 5, [], ["s1"], none, 0⟩ [] [oSell5]).1.avg_entry = 3) ∧
    ¬ ((3 : ℚ) = 0) := by
  constructor
  · constructor
    · norm_num [reconcile_fills, reconcileOrder, oSell5, filledOf, priceOf, cidOf, pyTruthy,
        List.erase]
    · norm_num [reconcile_fills, reconcileOrder, oSell5, filledOf, priceOf, cidOf, pyTruthy,
        List.erase]
  · norm_num

/-- Claim C3 as amended: the default (loaded-fresh) state satisfies the
invariant `total_base = 0 → avg_entry = 0`; a reconciled buy fill leaves
`total_base` strictly positive, so the invariant holds vacuously; and the
whole post-reconciliation cycle (stop-loss liquidation, take-profit
placement, entry-ladder placement, auto-rearm) preserves the invariant.
Sell-fill reconciliation does not preserve it (see the counterexample). -/
theorem flat_invariant_preservation (cfg : SymCfg) (inp : CycleInput) (symbol : String)
    (ts : ℕ) (st : SymbolState) (trades : List TradeEntry) (o : OrderReport) :
    (SymbolState.init.total_base = 0 → SymbolState.init.avg_entry = 0) ∧
    (o.status = "closed" → o.side = "buy" → cidOf o ∈ st.open_buy_orders →
      0 < filledOf o → 0 < priceOf o → 0 ≤ st.total_base →
      0 < (reconcileOrder symbol ts (st, trades) o).1.total_base) ∧
    ((st.total_base = 0 → st.avg_entry = 0) →
      (cycleAfterReconcile cfg inp st trades).1.total_base = 0 →
      (cycleAfterReconcile cfg inp st trades).1.avg_entry = 0) := by
  refine ⟨fun _ => rfl, ?_, cycle_preserves_flat_inv cfg inp st trades⟩
  intro h1 h2 h3 h4 h5 h6
  rw [reconcileOrder_buy_eq symbol ts st trades o h1 h2 h3 h4 h5 h6]
  simpa using by linarith

/-- Claim C3 amended witness: a concrete reconciled buy fill into a flat
state leaves `total_base` strictly positive. -/
theorem flat_invariant_preservation_witness :
    0 < (reconcileOrder "AAA" 0 (⟨0, 0, ["b1", "b2"], [], none, 0⟩, []) oBuy1).1.total_base := by
  exact (flat_invariant_preservation
      ⟨30, 10, 3, 5, 1000, [], [], 0, 1⟩
      ⟨"AAA", 40, none, 0, 0, 7, none, fun _ => none, fun _ => none, fun q => q, false⟩
      "AAA" 0 ⟨0, 0, ["b1", "b2"], [], none, 0⟩ [] oBuy1).2.1
    rfl rfl (by norm_num [oBuy1, cidOf]) (by norm_num [oBuy1, filledOf, pyTruthy])
    (by norm_num [oBuy1, priceOf, pyTruthy]) (by norm_num)

/-- Claim C4: when the state is positioned (`total_base > 0`), the configured
stop threshold is positive (the code's enablement condition), the price is
below the threshold, and the market sell is accepted, the cycle liquidates
the entire `total_base` with a market sell, appends exactly one ledger entry
with side `stop_exit` and realized P&L `(price - avg_entry)*total_base`,
resets the state to the default flat/unarmed `SymbolState.init`, and emits no
take-profit and no entry action in that cycle (the action trace is exactly
the four stop-branch effects). -/
theorem stop_loss_liquidation_resets_state (cfg : SymCfg) (inp : CycleInput)
    (st : SymbolState) (trades : List TradeEntry) (c : String)
    (hpos : 0 < st.total_base) (hcfg : 0 < cfg.stop_close_below)
    (hprice : inp.last < cfg.stop_close_below) (hsell : inp.marketSellCid = some c) :
    cycleAfterReconcile cfg inp st trades =
      (SymbolState.init,
       trades ++ [⟨inp.ts, inp.symbol, "stop_exit", st.total_base, inp.last,
         (inp.last - st.avg_entry) * st.total_base⟩],
       [BotAction.marketSell st.total_base,
        BotAction.appendTrade ⟨inp.ts, inp.symbol, "stop_exit", st.total_base, inp.last,
          (inp.last - st.avg_entry) * st.total_base⟩,
        BotAction.savePL, BotAction.saveState SymbolState.init]) := by
  unfold cycleAfterReconcile
  rw [if_pos ⟨hpos, hcfg, hprice⟩, hsell]

/-- Claim C4 witness: a position of 5 units at cost basis 3, threshold 50 and
price 40 is liquidated with realized P&L `(40-3)*5 = 185` and the state is
reset. -/
theorem stop_loss_liquidation_resets_state_witness :
    cycleAfterReconcile stopCfg stopInpOk ⟨3, 5, [], [], none, 0⟩ [] =
      (SymbolState.init,
       [⟨7, "BTC/USDT", "stop_exit", 5, 40, 185⟩],
       [BotAction.marketSell 5,
        BotAction.appendTrade ⟨7, "BTC/USDT", "stop_exit", 5, 40, 185⟩,
        BotAction.savePL, BotAction.saveState SymbolState.init]) := by
  rw [stop_loss_liquidation_resets_state stopCfg stopInpOk ⟨3, 5, [], [], none, 0⟩ [] "mk1"
    (by norm_num) (by norm_num [stopCfg]) (by norm_num [stopInpOk, stopCfg]) rfl]
  norm_num [stopInpOk]

/-- Claim C10: in the stop-loss branch, if the market-sell placement fails
(`place_market_sell` returns `None`), the state and the ledger are left
untouched, nothing is persisted, and the cycle still terminates immediately
— the only trace entry is the attempted market sell, so the stop exit is
retried fresh on the next tick. -/
theorem stop_loss_sell_failure_no_mutation (cfg : SymCfg) (inp : CycleInput)
    (st : SymbolState) (trades : List TradeEntry)
    (hpos : 0 < st.total_base) (hcfg : 0 < cfg.stop_close_below)
    (hprice : inp.last < cfg.stop_close_below) (hsell : inp.marketSellCid = none) :
    cycleAfterReconcile cfg inp st trades =
      (st, trades, [BotAction.marketSell st.total_base]) := by
  unfold cycleAfterReconcile
  rw [if_pos ⟨hpos, hcfg, hprice⟩, hsell]

/-- Claim C10 witness: with the same stop conditions but a failed market
sell, the cycle returns the state and ledger unchanged. -/
theorem stop_loss_sell_failure_no_mutation_witness :
    cycleAfterReconcile stopCfg stopInpFail ⟨3, 5, [], [], none, 0⟩ [] =
      (⟨3, 5, [], [], none, 0⟩, [], [BotAction.marketSell 5]) := by
  rw [stop_loss_sell_failure_no_mutation stopCfg stopInpFail ⟨3, 5, [], [], none, 0⟩ []
    (by norm_num) (by norm_num [stopCfg]) (by norm_num [stopInpFail, stopCfg]) rfl]

/-- Claim C8: when the RSI computation returns the insufficient-data sentinel
(`rsiVal = none`), the full cycle takes no signal action: no anchor is armed
(entry or auto-rearm), no DCA buy is placed, and no hysteresis disarm fires,
for every configuration, reconciliation outcome and starting state. -/
theorem nan_rsi_defers_signal_actions (cfg : SymCfg) (inp : CycleInput)
    (orders : Option (List OrderReport)) (st : SymbolState) (trades : List TradeEntry)
    (h : inp.rsiVal = none) :
    ((run_symbol cfg inp orders st trades).2.2).all (fun a => !isSignalAction a) = true := by
  rw [List.all_eq_true]
  intro a ha
  unfold run_symbol at ha
  have := cycle_nan_no_signal cfg inp _ _ h a ha
  simp [this]

/-- Claim C8 witness: a concrete positioned-and-armed state, with every
placement oracle succeeding and auto-rebuy enabled, emits no signal action
when the RSI is the sentinel. -/
theorem nan_rsi_defers_signal_actions_witness :
    ((run_symbol stopCfg nanInp (some []) ⟨3, 100, [], [], some 60, 0⟩ []).2.2).all
      (fun a => !isSignalAction a) = true :=
  nan_rsi_defers_signal_actions stopCfg nanInp (some []) ⟨3, 100, [], [], some 60, 0⟩ [] rfl

/-- Claim C5: while armed with anchor price `a`, every planned ladder order
for step `i` has price `a*(1 - i*dca_step_pct/100)` and amount
`roundAmt(usd_per_entry / price)` (a fixed USD budget per step); the
cumulative planned USD never exceeds `max_position_usd`; with
`dca_steps = 3, dca_step_pct = 5, anchor = 100` the target prices are
`[100, 95, 90]`; with `max_position_usd = 25` planning stops after steps 0
and 1 at 20 planned USD; and a step whose post-rounding notional falls below
the minimum-notional floor is skipped while later steps are still placed
(steps 1 and 2 placed, step 0 skipped). -/
theorem dca_ladder_spec (roundAmt : ℚ → ℚ) (place : ℕ → Option String) (cfg : SymCfg)
    (anchor : ℚ) :
    (∀ e ∈ (entry_ladder roundAmt place cfg anchor).1,
      e.buy_price = anchor * (1 - (e.idx : ℚ) * cfg.dca_step_pct / 100) ∧
      e.amount = roundAmt (cfg.usd_per_entry / e.buy_price)) ∧
    (0 ≤ cfg.max_position_usd →
      (entry_ladder roundAmt place cfg anchor).2 ≤ cfg.max_position_usd) ∧
    ((entry_ladder (fun q => q) (fun _ => some "x") ladderCfgA 100).1.map
      (fun e => e.buy_price) = [100, 95, 90]) ∧
    ((entry_ladder (fun q => q) (fun _ => some "x") ladderCfgB 100).1.map
      (fun e => e.idx) = [0, 1] ∧
     (entry_ladder (fun q => q) (fun _ => some "x") ladderCfgB 100).2 = 20) ∧
    ((entry_ladder (fun q => if q < 2 then 1 else 2) (fun _ => some "x") ladderCfgC 100).1.map
      (fun e => e.idx) = [1, 2]) := by
  refine ⟨?_, ?_, ?_, ⟨?_, ?_⟩, ?_⟩
  · exact ladder_go_prices roundAmt place cfg anchor cfg.dca_steps 0 0 [] (by simp)
  · intro h
    exact ladder_go_budget roundAmt place cfg anchor cfg.dca_steps 0 0 [] h
  · norm_num [entry_ladder, ladderCfgA, ladder_go]
  · norm_num [entry_ladder, ladderCfgB, ladder_go]
  · norm_num [entry_ladder, ladderCfgB, ladder_go]
  · norm_num [entry_ladder, ladderCfgC, ladder_go]

/-- Claim C5 witness: the cumulative planned USD of the example ladder stays
within its 1000 budget cap. -/
theorem dca_ladder_spec_witness :
    (entry_ladder (fun q => q) (fun _ => some "x") ladderCfgA 100).2 ≤ 1000 := by
  have h := (dca_ladder_spec (fun q => q) (fun _ => some "x") ladderCfgA 100).2.1
    (by norm_num [ladderCfgA])
  simpa [ladderCfgA] using h

/-- Claim C6: for every price list with at least `period+1` elements (and a
positive period, as the Python code divides by `period`), `rsi` returns a
value in `[0, 100]`; it returns exactly 100 when the most recent `period`
deltas contain no negative delta; and for shorter lists it returns the
insufficient-data sentinel `none` instead of a numeric RSI. -/
theorem rsi_range_and_sentinel (values : List ℚ) (period : ℕ) (hp : 0 < period) :
    (period + 1 ≤ values.length →
      ∃ r, rsi values period = some r ∧ 0 ≤ r ∧ r ≤ 100) ∧
    (period + 1 ≤ values.length → (∀ d ∈ rsiDeltas values period, 0 ≤ d) →
      rsi values period = some 100) ∧
    (values.length < period + 1 → rsi values period = none) := by
  have hper : (0 : ℚ) < (period : ℚ) := by exact_mod_cast hp
  refine ⟨?_, ?_, ?_⟩
  · intro hlen
    have hnl : ¬ values.length < period + 1 := not_lt.mpr hlen
    simp only [rsi, hnl, if_false]
    set g := (((rsiDeltas values period).filter (fun d => 0 ≤ d)).sum) / (period : ℚ) with hg
    set l := ((((rsiDeltas values period).filter (fun d => d < 0)).map (fun d => -d)).sum) /
      (period : ℚ) with hl
    by_cases hl0 : l = 0
    · rw [if_pos hl0]
      exact ⟨100, rfl, by norm_num, by norm_num⟩
    · rw [if_neg hl0]
      have hgnn : 0 ≤ g := by
        rw [hg]
        apply div_nonneg _ hper.le
        apply List.sum_nonneg
        intro x hx
        exact of_decide_eq_true (List.mem_filter.mp hx).2
      have hlnn : 0 ≤ l := by
        rw [hl]
        apply div_nonneg _ hper.le
        apply List.sum_nonneg
        intro x hx
        obtain ⟨d, hd, rfl⟩ := List.mem_map.mp hx
        have : d < 0 := of_decide_eq_true (List.mem_filter.mp hd).2
        linarith
      have hlpos : 0 < l := lt_of_le_of_ne hlnn (Ne.symm hl0)
      have hqnn : 0 ≤ g / l := div_nonneg hgnn hlnn
      have h1 : (0 : ℚ) < 1 + g / l := by linarith
      have h2 : 100 / (1 + g / l) ≤ 100 := div_le_self (by norm_num) (by linarith)
      have h3 : 0 < 100 / (1 + g / l) := div_pos (by norm_num) h1
      exact ⟨_, rfl, by linarith, by linarith⟩
  · intro hlen hnn
    have hnl : ¬ values.length < period + 1 := not_lt.mpr hlen
    have hfl : ((rsiDeltas values period).filter (fun d => d < 0)) = [] := by
      rw [List.filter_eq_nil_iff]
      intro a ha
      simpa using not_lt.mpr (hnn a ha)
    simp [rsi, hnl, hfl]
  · intro h
    simp only [rsi, h, if_true]

/-- Claim C6 witness: `rsi [1,2,3] 2` is defined and within bounds, equals
100 since both recent deltas are gains, and `rsi [1,2] 2` is the sentinel. -/
theorem rsi_range_and_sentinel_witness :
    (∃ r, rsi [1, 2, 3] 2 = some r ∧ 0 ≤ r ∧ r ≤ 100) ∧
    rsi [1, 2, 3] 2 = some 100 ∧
    rsi [1, 2] 2 = none := by
  refine ⟨(rsi_range_and_sentinel [1, 2, 3] 2 (by norm_num)).1 (by norm_num),
    (rsi_range_and_sentinel [1, 2, 3] 2 (by norm_num)).2.1 (by norm_num) ?_,
    (rsi_range_and_sentinel [1, 2] 2 (by norm_num)).2.2 (by norm_num)⟩
  intro d hd
  have : d = 1 ∨ d = 1 := by
    revert hd
    norm_num [rsiDeltas, List.range, List.range.loop]
  rcases this with h | h <;> simp [h]

/-- Claim C7: `macd` always returns three sequences of equal length with
`histogram[i] = macdLine[i] - signalLine[i]` for every index; when fewer than
`max(fast, slow, signal) + 1` closes exist it returns `([0], [0], [0])`
rather than failing; and each EMA is seeded by the first value and satisfies
the forward recurrence `ema[i+1] = value[i+1]*k + ema[i]*(1-k)` with
`k = 2/(period+1)` for every period of at least 1. -/
theorem macd_shape_and_recurrence (closes : List ℚ) (fast slow signal : ℕ) :
    ((macd closes fast slow signal).1.length = (macd closes fast slow signal).2.1.length ∧
     (macd closes fast slow signal).2.1.length = (macd closes fast slow signal).2.2.length) ∧
    (∀ i, i < (macd closes fast slow signal).2.2.length →
      (macd closes fast slow signal).2.2.getD i 0 =
        (macd closes fast slow signal).1.getD i 0 -
          (macd closes fast slow signal).2.1.getD i 0) ∧
    (closes.length < max (max fast slow) signal + 1 →
      macd closes fast slow signal = ([0], [0], [0])) ∧
    (∀ (v : List ℚ) (p : ℕ), 1 ≤ p → v ≠ [] →
      (ema v p).getD 0 0 = v.getD 0 0 ∧
      ∀ i, i + 1 < v.length →
        (ema v p).getD (i + 1) 0 =
          v.getD (i + 1) 0 * (2 / ((p : ℚ) + 1)) +
            (ema v p).getD i 0 * (1 - 2 / ((p : ℚ) + 1))) := by
  by_cases hshort : closes.length < max (max fast slow) signal + 1
  · refine ⟨?_, ?_, ?_, ?_⟩
    · simp [macd, hshort]
    · intro i hi
      have : i = 0 := by
        simp [macd, hshort] at hi
        omega
      subst this
      simp [macd, hshort]
    · intro _; simp [macd, hshort]
    · intro v p hp hv
      exact ⟨ema_getD_zero v p hv, fun i hi => ema_getD_succ v p hp i hi⟩
  · have hml : (List.zipWith (fun f s => f - s) (ema closes fast) (ema closes slow)).length
        = closes.length := by
      simp [List.length_zipWith, ema_length]
    refine ⟨?_, ?_, ?_, ?_⟩
    · simp only [macd, hshort, if_false]
      constructor
      · simp [List.length_zipWith, ema_length, hml]
      · simp [List.length_zipWith, ema_length, hml]
    · intro i hi
      simp only [macd, hshort, if_false] at hi ⊢
      have hhist : i < (List.zipWith (fun m s => m - s)
          (List.zipWith (fun f s => f - s) (ema closes fast) (ema closes slow))
          (ema (List.zipWith (fun f s => f - s) (ema closes fast) (ema closes slow))
            signal)).length := hi
      have h1 : i < (List.zipWith (fun f s => f - s) (ema closes fast)
          (ema closes slow)).length := by
        simp only [List.length_zipWith, ema_length, hml] at hhist ⊢
        omega
      have h2 : i < (ema (List.zipWith (fun f s => f - s) (ema closes fast) (ema closes slow))
          signal).length := by
        simp only [ema_length, hml] at h1 ⊢
        omega
      exact zipWith_sub_getD _ _ i h1 h2
    · intro hc; exact absurd hc hshort
    · intro v p hp hv
      exact ⟨ema_getD_zero v p hv, fun i hi => ema_getD_succ v p hp i hi⟩

/-- Claim C7 witness: two closes are fewer than `max(12,26,9)+1`, so `macd`
degrades to `([0],[0],[0])`; and the EMA recurrence instantiated at
`[1,2,4]`, period 3, index 0. -/
theorem macd_shape_and_recurrence_witness :
    macd [1, 2] 12 26 9 = ([0], [0], [0]) ∧
    (ema [1, 2, 4] 3).getD 1 0 =
      ([1, 2, 4] : List ℚ).getD 1 0 * (2 / (((3 : ℕ) : ℚ) + 1)) +
        (ema [1, 2, 4] 3).getD 0 0 * (1 - 2 / (((3 : ℕ) : ℚ) + 1)) := by
  constructor
  · exact (macd_shape_and_recurrence [1, 2] 12 26 9).2.2.1 (by norm_num)
  · exact ((macd_shape_and_recurrence [1, 2, 4] 12 26 9).2.2.2 [1, 2, 4] 3
      (by norm_num) (by simp)).2 0 (by norm_num)

/-- Claim C9 as amended: `save_state` overwrites the record in place — it
truncates the file and then writes the payload, with no temporary file and no
rename.  Completing both operations leaves the new record, but a process
interrupted between the truncate and the write leaves an empty file: a torn
record that is neither the old nor the new record whenever both are
nonempty. -/
theorem save_state_overwrites_in_place (sym payload old : String) (fs0 : FileSys)
    (hold : fs0 (state_path sym) = some old) (hto : old ≠ "") (htp : payload ≠ "") :
    applyFsOps fs0 (save_state_ops sym payload) (state_path sym) = some payload ∧
    applyFsOps fs0 ((save_state_ops sym payload).take 1) (state_path sym) = some "" ∧
    applyFsOps fs0 ((save_state_ops sym payload).take 1) (state_path sym) ≠ some old ∧
    applyFsOps fs0 ((save_state_ops sym payload).take 1) (state_path sym) ≠ some payload := by
  refine ⟨?_, ?_, ?_, ?_⟩
  · simp [applyFsOps, applyFsOp, save_state_ops]
  · simp [applyFsOps, applyFsOp, save_state_ops]
  · simp only [applyFsOps, save_state_ops, List.take, List.foldl, applyFsOp, if_pos rfl]
    intro hcontra
    exact hto (Option.some.inj hcontra).symm
  · simp only [applyFsOps, save_state_ops, List.take, List.foldl, applyFsOp, if_pos rfl]
    intro hcontra
    exact htp (Option.some.inj hcontra).symm

/-- Claim C9 amended witness: saving `NEW` over an existing `OLD` record
completes to `NEW`, and the one-operation prefix leaves the empty torn
record. -/
theorem save_state_overwrites_in_place_witness :
    applyFsOps (fun q => if q = state_path "BTC/USDT" then some "OLD" else none)
      (save_state_ops "BTC/USDT" "NEW") (state_path "BTC/USDT") = some "NEW" ∧
    applyFsOps (fun q => if q = state_path "BTC/USDT" then some "OLD" else none)
      ((save_state_ops "BTC/USDT" "NEW").take 1) (state_path "BTC/USDT") = some "" := by
  have h := save_state_overwrites_in_place "BTC/USDT" "NEW" "OLD"
    (fun q => if q = state_path "BTC/USDT" then some "OLD" else none)
    (if_pos rfl) (by decide) (by decide)
  exact ⟨h.1, h.2.1⟩

/-- Claim C9 counterexample: interrupting `save_state` right after its
truncating open leaves the persisted record equal to neither the old complete
record `OLD` nor the new complete record `NEW` — a torn record is
observable, so the write is not atomic. -/
theorem save_state_torn_write_observable :
    applyFsOps (fun q => if q = state_path "BTC/USDT" then some "OLD" else none)
      ((save_state_ops "BTC/USDT" "NEW").take 1) (state_path "BTC/USDT") ≠ some "OLD" ∧
    applyFsOps (fun q => if q = state_path "BTC/USDT" then some "OLD" else none)
      ((save_state_ops "BTC/USDT" "NEW").take 1) (state_path "BTC/USDT") ≠ some "NEW" := by
  constructor
  · simp only [applyFsOps, save_state_ops, List.take, List.foldl, applyFsOp, if_pos rfl]
    decide
  · simp only [applyFsOps, save_state_ops, List.take, List.foldl, applyFsOp, if_pos rfl]
    decide
